import Mathlib

/-!
Verification development for the wheel ABI analysis engine
(`src/auditwheel/wheel_abi.py`).

The Python source is shallowly embedded: each function of `wheel_abi.py`
becomes an executable Lean definition over explicit data.  External
collaborators that are not part of the source file (the ELF readers in
`elfutils.py`, the dependency resolver `lddtree`, and the policy module)
are represented either as data carried by the input records or as
definitions modelled from the specification, each marked as such.

Python dictionaries are modelled as insertion-ordered association lists:
assignment replaces the value of an existing key in place and appends a
fresh key at the end, exactly like CPython dicts.  Python sets of strings
are modelled as duplicate-free lists in first-insertion order; only
membership is ever observed by the analysis.
-/

namespace WheelAbi

/-- Ordered association list lookup: first entry with the given key. -/
def alistGet {α : Type} : List (String × α) → String → Option α
  | [], _ => none
  | (k1, v) :: rest, k => if k1 = k then some v else alistGet rest k

/-- Lookup with a default value. -/
def alistGetD {α : Type} (l : List (String × α)) (k : String) (dflt : α) : α :=
  (alistGet l k).getD dflt

/-- Python dict assignment `d[k] = v`: replace in place if the key exists,
append at the end otherwise. -/
def alistSet {α : Type} : List (String × α) → String → α → List (String × α)
  | [], k, v => [(k, v)]
  | (k1, v1) :: rest, k, v =>
      if k1 = k then (k1, v) :: rest else (k1, v1) :: alistSet rest k v

/-- Key membership in an association list. -/
def alistHasKey {α : Type} (l : List (String × α)) (k : String) : Bool :=
  l.any (fun e => e.1 = k)

mutual
/-- The values the Python analysis stores in the nested dictionaries merged
by `update`: strings, integers, `None`, and nested dicts.  (`float` never
occurs in the shapes this engine produces and is omitted; a value of any
other shape would make the source `update` raise, a path the analysis never
reaches.)  The entries of a dict are an insertion-ordered association
sequence. -/
inductive PyVal : Type where
  | str (s : String)
  | int (n : Int)
  | none
  | dict (entries : PyEntries)

/-- The insertion-ordered entries of a Python dict value. -/
inductive PyEntries : Type where
  | nil
  | cons (k : String) (v : PyVal) (rest : PyEntries)
end

/-- The entries of a dict value as a plain list; a non-dict value has no
entries (the source `update` only ever recurses into mapping values). -/
def PyEntries.toList : PyEntries → List (String × PyVal)
  | .nil => []
  | .cons k v rest => (k, v) :: rest.toList

/-- Build dict entries from a list of pairs. -/
def PyEntries.ofList : List (String × PyVal) → PyEntries
  | [] => .nil
  | (k, v) :: rest => .cons k v (PyEntries.ofList rest)

/-- The raw entries of a dict value. -/
def dictEntries : PyVal → PyEntries
  | .dict es => es
  | _ => .nil

/-- Entries of a dict value, as a list. -/
def pvEntries (pv : PyVal) : List (String × PyVal) :=
  (dictEntries pv).toList

/-- `d.get(k, dflt)` on dict entries. -/
def entGetD : PyEntries → String → PyVal → PyVal
  | .nil, _, dflt => dflt
  | .cons k1 v rest, k, dflt => if k1 = k then v else entGetD rest k dflt

/-- `d.get(k)` on dict entries. -/
def entGet : PyEntries → String → Option PyVal
  | .nil, _ => Option.none
  | .cons k1 v rest, k => if k1 = k then some v else entGet rest k

/-- Python dict assignment `d[k] = v` on dict entries. -/
def entSet : PyEntries → String → PyVal → PyEntries
  | .nil, k, v => .cons k v .nil
  | .cons k1 v1 rest, k, v =>
      if k1 = k then .cons k1 v rest else .cons k1 v1 (entSet rest k v)

/-- The keys of dict entries in order. -/
def entKeys (es : PyEntries) : List String := es.toList.map Prod.fst

/-- Induction over dict entries alone (the mutual recursor of
`PyVal`/`PyEntries` has two motives; entry-level proofs only need this
one). -/
def pyEntriesInduction (motive : PyEntries → Prop) (hnil : motive PyEntries.nil)
    (hcons : ∀ k v rest, motive rest → motive (PyEntries.cons k v rest)) :
    ∀ es, motive es
  | PyEntries.nil => hnil
  | PyEntries.cons k v rest => hcons k v rest (pyEntriesInduction motive hnil hcons rest)

mutual
/-- The source `update(d, u)` (wheel_abi.py lines 226-235) on the entries of
the two dicts: walk `u` in order; each value is merged into `d[k]` by
`updateInto`. -/
def updateEntries : PyEntries → PyEntries → PyEntries
  | d, .nil => d
  | d, .cons k v rest =>
      updateEntries (entSet d k (updateInto (entGetD d k (PyVal.dict .nil)) v)) rest

/-- How one value of `u` lands in `d`: a mapping is merged recursively into
the old value's entries (`d.get(k, \x7b\x7d)`), any other value overwrites. -/
def updateInto : PyVal → PyVal → PyVal
  | old, .dict ues => .dict (updateEntries (dictEntries old) ues)
  | _, v => v
end

/-- The source `update` at dict values. -/
def update (d u : PyVal) : PyVal :=
  PyVal.dict (updateEntries (dictEntries d) (dictEntries u))

/-- `versioned_symbols` maps a referenced library name to the set of version
strings used against it; the set is modelled as a duplicate-free list. -/
abbrev VSymMap := List (String × List String)

/-- The version-string set recorded for key `k` (empty when absent, which is
what the `defaultdict(set)` of the source observes). -/
def vsymVals (m : VSymMap) (k : String) : List String := alistGetD m k []

/-- `versioned_symbols[key].add(value)` on the defaultdict of sets. -/
def vsymAdd : VSymMap → String → String → VSymMap
  | [], k, v => [(k, [v])]
  | (k1, vs) :: rest, k, v =>
      if k1 = k then (k1, if v ∈ vs then vs else vs ++ [v]) :: rest
      else (k1, vs) :: vsymAdd rest k v

/-- Record a stream of (dependency-name, version-string) pairs, as the loop
over `elf_find_versioned_symbols` does. -/
def vsymAddPairs (m : VSymMap) (ps : List (String × String)) : VSymMap :=
  ps.foldl (fun acc p => vsymAdd acc p.1 p.2) m

/-- `policy_symbols[k].update(vs)`: union a list of version strings into the
set at key `k`. -/
def vsymUnionAt (m : VSymMap) (k : String) (vs : List String) : VSymMap :=
  vs.foldl (fun acc v => vsymAdd acc k v) m

/-- A compatibility policy as loaded by the (external) policy catalog:
name, integer priority and whitelist of always-present system libraries. -/
structure Policy where
  name : String
  priority : Int
  whitelist : List String
deriving DecidableEq

/-- The dependency-tree record produced by the external `lddtree` resolver
for one ELF object: the direct needed library names, and the transitive
libraries with each soname resolved to a real path (empty string when the
library could not be resolved). -/
structure ElfTree where
  needed : List String
  libs : List (String × String)
deriving DecidableEq

/-- One file of the package together with everything the external ELF
collaborators report about it: whether it parses as ELF, whether it is a
Python extension (and for which major runtime version), its dependency
tree, its stream of versioned-symbol references, its narrow-unicode tagged
symbols and its imported symbol names. -/
structure WheelFile where
  path : String
  isElf : Bool
  isPyExt : Bool
  pyVer : Nat
  tree : ElfTree
  symPairs : List (String × String)
  ucs2Syms : List String
  importedSyms : List String
deriving DecidableEq

/-- Split a character list at every separator, Python `str.split(sep)`
semantics: the empty string yields one empty part, adjacent separators
yield empty parts. -/
def splitParts (sep : Char) : List Char → List Char → List String
  | [], acc => [String.mk acc.reverse]
  | c :: rest, acc =>
      if c = sep then String.mk acc.reverse :: splitParts sep rest []
      else splitParts sep rest (c :: acc)

/-- Path components, `fn.split(os.sep)` with the Linux separator. -/
def pathParts (s : String) : List String := splitParts '/' s.data []

/-- `os.path.basename`: the component after the last separator. -/
def pathBasename (s : String) : String := (pathParts s).getLastD s

/-- Modelled from the spec: the floating-point-exception-buffer detector
`elf_references_PyFPE_jbuf` (elfutils module, not in src) reports a
reference by exact name match against the imported symbol table. -/
def elfReferencesPyFPEJbuf (f : WheelFile) : Bool :=
  f.importedSyms.contains "PyFPE_jbuf"

/-- Modelled from the spec: `lddtree_external_references` (policy module,
not in src).  Per policy, walk the resolved needed entries of the tree and
record those whose declared name is not whitelisted and whose real path is
non-empty; the priority-0 policy always reports empty external-reference
state. -/
def lddtreeExternalReferences (policies : List Policy) (tree : ElfTree) : PyVal :=
  PyVal.dict (PyEntries.ofList (policies.map (fun p =>
    (p.name, PyVal.dict (PyEntries.ofList
      [("libs", PyVal.dict (PyEntries.ofList (if p.priority = 0 then [] else
          (tree.libs.filter
            (fun e => ¬ p.whitelist.contains e.1 ∧ e.2 ≠ "")).map
            (fun e => (e.1, PyVal.str e.2))))),
       ("priority", PyVal.int p.priority)])))))

/-- Modelled from the spec: `POLICY_PRIORITY_LOWEST` (policy module, not in
src), the lowest defined policy priority. -/
def policyPriorityLowest (policies : List Policy) : Int :=
  match policies with
  | [] => 0
  | p :: rest => rest.foldl (fun a q => min a q.priority) p.priority

/-- Modelled from the spec: `POLICY_PRIORITY_HIGHEST` (policy module, not in
src), the highest defined policy priority. -/
def policyPriorityHighest (policies : List Policy) : Int :=
  match policies with
  | [] => 0
  | p :: rest => rest.foldl (fun a q => max a q.priority) p.priority

/-- Modelled from the spec: `get_policy_name` (policy module, not in src)
resolves a numeric priority back to its policy name. -/
def getPolicyName (policies : List Policy) (prio : Int) : String :=
  match policies.find? (fun p => p.priority = prio) with
  | some p => p.name
  | Option.none => ""

/-- The state threaded through the single pass of `get_wheel_elfdata`:
the extension trees and their per-policy external references, the
non-extension trees, the accumulated versioned symbols and the two
special-symbol flags. -/
structure P1State where
  full : List (String × ElfTree)
  fullRefs : List (String × PyVal)
  nonpy : List (String × ElfTree)
  vs : VSymMap
  ucs2 : Bool
  fpe : Bool

/-- Initial pass state. -/
def p1Init : P1State := ⟨[], [], [], [], false, false⟩

/-- The fatal malformed-package message for a native binary under purelib. -/
def purelibMsg (f : WheelFile) : String :=
  "Invalid binary wheel, found shared library in purelib folder: " ++ pathBasename f.path

/-- One iteration of the file loop of `get_wheel_elfdata` (lines 43-79):
skip non-ELF files; abort on a shared library under a purelib path
component; record versioned symbols for every ELF; Python extensions go to
the full tree (with external references and the two flag checks), other
ELFs are set aside. -/
def p1Step (policies : List Policy) (st : P1State) (f : WheelFile) : Except String P1State :=
  if f.isElf = false then .ok st
  else if (pathParts f.path).contains "purelib" then .error (purelibMsg f)
  else
    let vs := vsymAddPairs st.vs f.symPairs
    if f.isPyExt then
      .ok { st with
        full := st.full ++ [(f.path, f.tree)],
        fullRefs := st.fullRefs ++ [(f.path, lddtreeExternalReferences policies f.tree)],
        vs := vs,
        ucs2 := st.ucs2 || (f.pyVer = 2 && !f.ucs2Syms.isEmpty),
        fpe := st.fpe || elfReferencesPyFPEJbuf f }
    else
      .ok { st with nonpy := st.nonpy ++ [(f.path, f.tree)], vs := vs }

/-- The file loop of `get_wheel_elfdata`, short-circuiting on the fatal
purelib condition. -/
def p1Run (policies : List Policy) (st : P1State) : List WheelFile → Except String P1State
  | [] => .ok st
  | f :: rest =>
      match p1Step policies st f with
      | .error e => .error e
      | .ok st1 => p1Run policies st1 rest

/-- The result tuple of `get_wheel_elfdata` (line 100). -/
structure WheelElfData where
  fullElftree : List (String × ElfTree)
  fullExternalRefs : List (String × PyVal)
  versionedSymbols : VSymMap
  usesUcs2 : Bool
  usesPyFPE : Bool

/-- The set of all library names needed by any ELF in the wheel
(lines 81-87), taken over the extension and the non-extension trees. -/
def neededOf (st : P1State) : List String :=
  (st.full ++ st.nonpy).flatMap (fun e => e.2.needed)

/-- `get_wheel_elfdata` (lines 33-101): the single pass over the package
files followed by the promotion of non-extension ELFs whose basename is
not needed by anything else inside the wheel. -/
def get_wheel_elfdata (policies : List Policy) (pkg : List WheelFile) :
    Except String WheelElfData :=
  match p1Run policies p1Init pkg with
  | .error e => .error e
  | .ok st =>
      let needed := neededOf st
      let promoted := st.nonpy.filter (fun e => ¬ needed.contains (pathBasename e.1))
      .ok { fullElftree := st.full ++ promoted,
            fullExternalRefs :=
              st.fullRefs ++ promoted.map
                (fun e => (e.1, lddtreeExternalReferences policies e.2)),
            versionedSymbols := st.vs,
            usesUcs2 := st.ucs2,
            usesPyFPE := st.fpe }

/-- Priority field of a per-policy external-reference dict. -/
def pvPriorityD (pv : PyVal) : Int :=
  match alistGet (pvEntries pv) "priority" with
  | some (.int n) => n
  | _ => 0

/-- Libs entries of a per-policy external-reference dict. -/
def pvLibs (pv : PyVal) : List (String × PyVal) :=
  pvEntries (alistGetD (pvEntries pv) "libs" (PyVal.dict PyEntries.nil))

/-- The initial `external_refs` built by `analyze_wheel_abi`
(lines 171-175): every policy starts with empty libs. -/
def initialExternalRefs (policies : List Policy) : PyVal :=
  PyVal.dict (PyEntries.ofList (policies.map (fun p =>
    (p.name, PyVal.dict (PyEntries.ofList
      [("libs", PyVal.dict PyEntries.nil), ("priority", PyVal.int p.priority)])))))

/-- The merged external references after the `update` loop of
`analyze_wheel_abi` (lines 180-181). -/
def externalRefsOf (policies : List Policy) (d : WheelElfData) : PyVal :=
  d.fullExternalRefs.foldl (fun er e => update er e.2) (initialExternalRefs policies)

/-- One libs entry of `get_external_libs`: record `realpath -> soname` when
the real path is truthy and not yet present. -/
def extLibsAddLib (result : List (String × String)) (lib : String × PyVal) :
    List (String × String) :=
  match lib.2 with
  | PyVal.str rp =>
      if rp ≠ "" ∧ alistHasKey result rp = false then result ++ [(rp, lib.1)]
      else result
  | _ => result

/-- One policy of `get_external_libs`: the priority-0 policy is skipped. -/
def extLibsAddPolicy (result : List (String × String)) (e : String × PyVal) :
    List (String × String) :=
  if pvPriorityD e.2 = 0 then result
  else (pvLibs e.2).foldl extLibsAddLib result

/-- `get_external_libs` (lines 104-120): across all policies except the
priority-0 one, collect `realpath -> soname`, keeping the first writer for
each real path and skipping unresolved (falsy) real paths. -/
def get_external_libs (er : PyVal) : List (String × String) :=
  (pvEntries er).foldl extLibsAddPolicy []

/-- `get_versioned_symbols` (lines 123-139): re-scan each external library
real path (through the external ELF reader, modelled by `env`: `none` for a
file that does not parse as ELF, otherwise its versioned-symbol pairs) and
key the resulting map by soname. -/
def get_versioned_symbols (env : String → Option (List (String × String)))
    (libs : List (String × String)) : List (String × VSymMap) :=
  libs.foldl (fun result lib =>
    match env lib.1 with
    | Option.none => result
    | some pairs => alistSet result lib.2 (vsymAddPairs [] pairs)) []

/-- One soname of a policy in `get_symbol_policies`: union in the external
library requirements when the re-scan knows the soname. -/
def gspApplyLib (extVS : List (String × VSymMap)) (m : VSymMap) (lib : String × PyVal) :
    VSymMap :=
  match alistGet extVS lib.1 with
  | Option.none => m
  | some ext => ext.foldl (fun acc kv => vsymUnionAt acc kv.1 kv.2) m

/-- The policy-adjusted symbol set of one policy in `get_symbol_policies`. -/
def gspPolicySymbols (extVS : List (String × VSymMap)) (vs : VSymMap) (e : String × PyVal) :
    VSymMap :=
  (pvLibs e.2).foldl (gspApplyLib extVS) vs

/-- `get_symbol_policies` (lines 142-167): per non-priority-0 policy, start
from the package symbols and union in the re-scanned requirements of every
external library the policy references; pair the result with its
priority under the external priority-from-symbols function `vsp`. -/
def get_symbol_policies (vsp : VSymMap → Int) (vs : VSymMap)
    (extVS : List (String × VSymMap)) (er : PyVal) : List (Int × VSymMap) :=
  (pvEntries er).foldl (fun result e =>
    if pvPriorityD e.2 = 0 then result
    else result ++ [(vsp (gspPolicySymbols extVS vs e), gspPolicySymbols extVS vs e)]) []

/-- Python `max(candidates, key=first component, default=dflt)`: strictly
greater replaces, so the first of equal-priority candidates is kept. -/
def maxByFst (l : List (Int × VSymMap)) (dflt : Int × VSymMap) : Int × VSymMap :=
  match l with
  | [] => dflt
  | x :: xs => xs.foldl (fun b y => if y.1 > b.1 then y else b) x

/-- Lines 186-199 of `analyze_wheel_abi`: the symbol sub-tag priority and
the reported versioned-symbol set, falling back to the unadjusted package
symbols when no candidate policies exist. -/
def symbolVerdict (vsp : VSymMap → Int) (extEnv : String → Option (List (String × String)))
    (policies : List Policy) (d : WheelElfData) : Int × VSymMap :=
  let er := externalRefsOf policies d
  let extLibs := get_external_libs er
  let extVS := get_versioned_symbols extEnv extLibs
  maxByFst (get_symbol_policies vsp d.versionedSymbols extVS er)
    (vsp d.versionedSymbols, d.versionedSymbols)

/-- Python `max(ints, default=dflt)`. -/
def maxIntD (l : List Int) (dflt : Int) : Int :=
  match l with
  | [] => dflt
  | x :: xs => xs.foldl max x

/-- Lines 201-203: the reference sub-tag priority, the highest priority of a
policy with no external libs, defaulting to the lowest priority. -/
def refPolicyOf (policies : List Policy) (d : WheelElfData) : Int :=
  maxIntD (((pvEntries (externalRefsOf policies d)).filterMap
      (fun e => if (pvLibs e.2).isEmpty then some (pvPriorityD e.2) else Option.none)))
    (policyPriorityLowest policies)

/-- Lines 205-208: the legacy-unicode sub-tag priority. -/
def ucsPolicyOf (policies : List Policy) (d : WheelElfData) : Int :=
  if d.usesUcs2 then policyPriorityLowest policies else policyPriorityHighest policies

/-- Lines 210-213: the floating-point-exception-buffer sub-tag priority. -/
def pyfpePolicyOf (policies : List Policy) (d : WheelElfData) : Int :=
  if d.usesPyFPE then policyPriorityLowest policies else policyPriorityHighest policies

/-- The `WheelAbIInfo` namedtuple returned by `analyze_wheel_abi`. -/
structure WheelAbIInfo where
  overallTag : String
  externalRefs : PyVal
  refTag : String
  versionedSymbols : VSymMap
  symTag : String
  ucsTag : String
  pyfpeTag : String

/-- `analyze_wheel_abi` (lines 170-223): extract the package data, merge
the per-object external references, compute the four sub-tag priorities
and collapse them into the overall tag by taking their minimum. -/
def analyze_wheel_abi (policies : List Policy) (vsp : VSymMap → Int)
    (extEnv : String → Option (List (String × String))) (pkg : List WheelFile) :
    Except String WheelAbIInfo :=
  match get_wheel_elfdata policies pkg with
  | .error e => .error e
  | .ok d =>
      let sv := symbolVerdict vsp extEnv policies d
      let rp := refPolicyOf policies d
      let up := ucsPolicyOf policies d
      let fp := pyfpePolicyOf policies d
      .ok { overallTag := getPolicyName policies (min (min sv.1 rp) (min up fp)),
            externalRefs := externalRefsOf policies d,
            refTag := getPolicyName policies rp,
            versionedSymbols := sv.2,
            symTag := getPolicyName policies sv.1,
            ucsTag := getPolicyName policies up,
            pyfpeTag := getPolicyName policies fp }

/-- The process-wide memo of `get_wheel_elfdata` (`functools.lru_cache`,
line 33): keyed by the wheel path alone; successful results are cached,
a raised error is not.  (The bounded-capacity eviction of `lru_cache` is
immaterial to the claims and not modelled.) -/
def get_wheel_elfdata_cached (policies : List Policy)
    (env : String → List WheelFile) (cache : List (String × WheelElfData))
    (wheelFn : String) : Except String WheelElfData × List (String × WheelElfData) :=
  match alistGet cache wheelFn with
  | some d => (.ok d, cache)
  | Option.none =>
      match get_wheel_elfdata policies (env wheelFn) with
      | .ok d => (.ok d, cache ++ [(wheelFn, d)])
      | .error e => (.error e, cache)

/-- Pointwise containment of versioned-symbol maps: every recorded version
requirement of the first map is recorded in the second. -/
def vsymSub (a b : VSymMap) : Prop :=
  ∀ k v, v ∈ vsymVals a k → v ∈ vsymVals b k

/-- The full-tree entry a file contributes in the first phase: Python
extensions only. -/
def extEntry (f : WheelFile) : Option (String × ElfTree) :=
  if f.isElf && f.isPyExt then some (f.path, f.tree) else Option.none

/-- The external-reference entry a Python extension contributes. -/
def extRefEntry (policies : List Policy) (f : WheelFile) : Option (String × PyVal) :=
  if f.isElf && f.isPyExt then some (f.path, lddtreeExternalReferences policies f.tree)
  else Option.none

/-- The entry a non-extension ELF contributes to the set-aside map. -/
def nonpyEntry (f : WheelFile) : Option (String × ElfTree) :=
  if f.isElf && !f.isPyExt then some (f.path, f.tree) else Option.none

/-- A native binary sitting under a purelib path component. -/
def elfInPurelib (f : WheelFile) : Bool :=
  f.isElf && (pathParts f.path).contains "purelib"

/-- Whether a file trips the narrow-unicode flag. -/
def ucsFlag (f : WheelFile) : Bool :=
  f.isElf && (f.isPyExt && ((f.pyVer = 2 : Bool) && !f.ucs2Syms.isEmpty))

/-- Whether a file trips the floating-point-exception-buffer flag. -/
def fpeFlag (f : WheelFile) : Bool :=
  f.isElf && (f.isPyExt && elfReferencesPyFPEJbuf f)

/-- The versioned-symbol accumulation over a list of files. -/
def vsAccum (m : VSymMap) (l : List WheelFile) : VSymMap :=
  l.foldl (fun acc f => if f.isElf then vsymAddPairs acc f.symPairs else acc) m

/-- The value `get_wheel_elfdata` produces on a clean package, written as a
direct function of the file list. -/
def gweSpec (policies : List Policy) (pkg : List WheelFile) : WheelElfData :=
  let full := pkg.filterMap extEntry
  let nonpy := pkg.filterMap nonpyEntry
  let needed := (full ++ nonpy).flatMap (fun e => e.2.needed)
  let promoted := nonpy.filter (fun e => ¬ needed.contains (pathBasename e.1))
  { fullElftree := full ++ promoted,
    fullExternalRefs := pkg.filterMap (extRefEntry policies)
      ++ promoted.map (fun e => (e.1, lddtreeExternalReferences policies e.2)),
    versionedSymbols := vsAccum [] pkg,
    usesUcs2 := pkg.any ucsFlag,
    usesPyFPE := pkg.any fpeFlag }

/-- The set of all library names declared as needed by any ELF object of
the package, stated directly over the file list. -/
def neededLibs (pkg : List WheelFile) : List String :=
  (pkg.filter (fun f => f.isElf)).flatMap (fun f => f.tree.needed)

/-- Enlarging one object's own versioned-symbol stream. -/
def enlargeSyms (f : WheelFile) (extra : List (String × String)) : WheelFile :=
  { f with symPairs := f.symPairs ++ extra }

/-! ### Concrete packages and policies used by counterexamples and witnesses -/

/-- The libs entries of one named policy of an external-reference dict. -/
def policyLibs (er : PyVal) (name : String) : List (String × PyVal) :=
  pvLibs (alistGetD (pvEntries er) name (PyVal.dict PyEntries.nil))

/-- A trivially monotone priority-from-symbols function for witnesses. -/
def vsp0 : VSymMap → Int := fun _ => 0

/-- An external ELF reader that parses nothing, for witnesses. -/
def env0 : String → Option (List (String × String)) := fun _ => Option.none

/-- A two-policy catalog: the unconstrained priority-0 baseline and one
whitelist policy. -/
def pols2 : List Policy := [⟨"linux", 0, []⟩, ⟨"manylinux1", 100, ["libc.so.6"]⟩]

/-- A Python extension whose only dependency is whitelisted. -/
def fileExtClean : WheelFile :=
  { path := "pkg/foo.so", isElf := true, isPyExt := true, pyVer := 3,
    tree := { needed := ["libc.so.6"], libs := [("libc.so.6", "/lib/libc.so.6")] },
    symPairs := [("libc.so.6", "GLIBC_2.5")], ucs2Syms := [], importedSyms := [] }

/-- An extension resolving the external soname liba.so to one real path. -/
def fileExtRefX : WheelFile :=
  { path := "pkg/a1.so", isElf := true, isPyExt := true, pyVer := 3,
    tree := { needed := ["liba.so"], libs := [("liba.so", "/x/liba.so.1")] },
    symPairs := [], ucs2Syms := [], importedSyms := [] }

/-- A second extension resolving the same soname to a different real path. -/
def fileExtRefY : WheelFile :=
  { path := "pkg/a2.so", isElf := true, isPyExt := true, pyVer := 3,
    tree := { needed := ["liba.so"], libs := [("liba.so", "/y/liba.so.2")] },
    symPairs := [], ucs2Syms := [], importedSyms := [] }

/-- A non-extension library consumed by `libMutualB` below. -/
def libMutualA : WheelFile :=
  { path := "pkg/libA.so", isElf := true, isPyExt := false, pyVer := 0,
    tree := { needed := ["libB.so", "libX.so"],
              libs := [("libB.so", "pkg/libB.so"), ("libX.so", "/ext/libX.so")] },
    symPairs := [], ucs2Syms := [], importedSyms := [] }

/-- A non-extension library consumed by `libMutualA`, closing the cycle. -/
def libMutualB : WheelFile :=
  { path := "pkg/libB.so", isElf := true, isPyExt := false, pyVer := 0,
    tree := { needed := ["libA.so"], libs := [("libA.so", "pkg/libA.so")] },
    symPairs := [], ucs2Syms := [], importedSyms := [] }

/-- The mutually-consuming package of the C2 counterexample. -/
def pkgMutual : List WheelFile := [libMutualA, libMutualB]

/-- A non-extension library, promoted to top level, that references the
floating-point-exception-buffer symbol. -/
def libFpeNonExt : WheelFile :=
  { path := "pkg/libq.so", isElf := true, isPyExt := false, pyVer := 0,
    tree := { needed := [], libs := [] },
    symPairs := [], ucs2Syms := [], importedSyms := ["PyFPE_jbuf"] }

/-- A vendored library consumed internally, contributing its own versioned
symbols. -/
def libInternal : WheelFile :=
  { path := "pkg/.libs/libz.so.1", isElf := true, isPyExt := false, pyVer := 0,
    tree := { needed := ["libc.so.6"], libs := [("libc.so.6", "/lib/libc.so.6")] },
    symPairs := [("libc.so.6", "GLIBC_2.12")], ucs2Syms := [], importedSyms := [] }

/-- An extension consuming `libInternal`. -/
def fileExtUses : WheelFile :=
  { path := "pkg/bar.so", isElf := true, isPyExt := true, pyVer := 3,
    tree := { needed := ["libc.so.6", "libz.so.1"],
              libs := [("libc.so.6", "/lib/libc.so.6"), ("libz.so.1", "pkg/.libs/libz.so.1")] },
    symPairs := [("libc.so.6", "GLIBC_2.5")], ucs2Syms := [], importedSyms := [] }

/-- A legacy narrow-unicode extension. -/
def fileExtUcs : WheelFile :=
  { path := "pkg/old.so", isElf := true, isPyExt := true, pyVer := 2,
    tree := { needed := ["libc.so.6"], libs := [("libc.so.6", "/lib/libc.so.6")] },
    symPairs := [], ucs2Syms := ["PyUnicodeUCS2_AsASCIIString"], importedSyms := [] }

/-- An ELF extension misplaced under purelib. -/
def fileExtPurelib : WheelFile :=
  { path := "pkg-1.0.data/purelib/foo.so", isElf := true, isPyExt := true, pyVer := 3,
    tree := { needed := [], libs := [] },
    symPairs := [], ucs2Syms := [], importedSyms := [] }

/-- The external ELF reader of the C4 counterexample: the two real paths of
the same declared name carry different versioned-symbol requirements. -/
def envC4 : String → Option (List (String × String)) :=
  fun p =>
    if p = "/x/liba.so.1" then some [("libc.so.6", "GLIBC_2.5")]
    else if p = "/y/liba.so.2" then some [("libc.so.6", "GLIBC_2.30")]
    else Option.none

/-- An arbitrary memo entry for the C9 witness. -/
def dDummy : WheelElfData := ⟨[], [], [], false, false⟩

/-- The initial per-policy dict entries of the C3 witness. -/
def updD : PyEntries := PyEntries.cons "liba.so" (PyVal.str "/x/liba.so.1") PyEntries.nil

/-- The later per-policy dict entries of the C3 witness. -/
def updU : PyEntries := PyEntries.cons "liba.so" (PyVal.str "/y/liba.so.2") PyEntries.nil

/-- Package content before the in-place edit of the C9 counterexample. -/
def wheelEnvBefore : String → List WheelFile := fun _ => [fileExtClean]

/-- Package content after the in-place edit of the C9 counterexample: the
same path now holds an object requiring a newer glibc symbol version. -/
def wheelEnvAfter : String → List WheelFile :=
  fun _ => [{ fileExtClean with symPairs := [("libc.so.6", "GLIBC_2.30")] }]

/-- An external dependency reachable from the package: a soname resolved in
some ELF object's dependency tree whose name is not the basename of any
package file. -/
def reachableExternalDep (pkg : List WheelFile) (n : String) : Prop :=
  (∃ f ∈ pkg, f.isElf = true ∧ n ∈ f.tree.libs.map Prod.fst) ∧
    n ∉ pkg.map (fun f => pathBasename f.path)

/-- How many top-level analyzed objects have the given soname in their
dependency tree. -/
def topLevelVisitCount (d : WheelElfData) (n : String) : Nat :=
  (d.fullElftree.filter (fun e => n ∈ e.2.libs.map Prod.fst)).length

/-! ### Association list lemmas -/

theorem alistGet_set_self {α : Type} (l : List (String × α)) (k : String) (v : α) :
    alistGet (alistSet l k v) k = some v := by
  induction l with
  | nil => simp [alistSet, alistGet]
  | cons e rest ih =>
      by_cases h : e.1 = k
      · simp [alistSet, alistGet, h]
      · simp [alistSet, alistGet, h, ih]

theorem alistGet_set_ne {α : Type} (l : List (String × α)) (k k1 : String) (v : α)
    (h : k1 ≠ k) : alistGet (alistSet l k v) k1 = alistGet l k1 := by
  have hne : ¬ (k = k1) := fun hh => h hh.symm
  induction l with
  | nil => simp [alistSet, alistGet, hne]
  | cons e rest ih =>
      by_cases he : e.1 = k
      · subst he
        simp [alistSet, alistGet, hne]
      · simp only [alistSet, if_neg he]
        by_cases he1 : e.1 = k1
        · simp [alistGet, he1]
        · simp [alistGet, he1, ih]

theorem mem_keys_alistSet {α : Type} (l : List (String × α)) (k a : String) (v : α) :
    a ∈ (alistSet l k v).map Prod.fst ↔ a ∈ l.map Prod.fst ∨ a = k := by
  induction l with
  | nil => simp [alistSet]
  | cons e rest ih =>
      by_cases h : e.1 = k
      · subst h
        by_cases ha : a = e.1 <;> simp [alistSet, ha]
      · simp only [alistSet, if_neg h, List.map_cons, List.mem_cons, ih]
        tauto

theorem nodup_keys_alistSet {α : Type} (l : List (String × α)) (k : String) (v : α)
    (h : (l.map Prod.fst).Nodup) : ((alistSet l k v).map Prod.fst).Nodup := by
  induction l with
  | nil => simp [alistSet]
  | cons e rest ih =>
      simp only [List.map_cons, List.nodup_cons] at h
      by_cases he : e.1 = k
      · simpa [alistSet, he, List.nodup_cons] using h
      · simp only [alistSet, if_neg he, List.map_cons, List.nodup_cons]
        refine ⟨fun hmem => ?_, ih h.2⟩
        rcases (mem_keys_alistSet rest k e.1 v).1 hmem with h1 | h1
        · exact h.1 h1
        · exact he h1

theorem alistGet_of_mem {α : Type} (l : List (String × α)) (k : String) (v : α)
    (hnd : (l.map Prod.fst).Nodup) (hmem : (k, v) ∈ l) : alistGet l k = some v := by
  induction l with
  | nil => simp at hmem
  | cons e rest ih =>
      simp only [List.map_cons, List.nodup_cons] at hnd
      rcases List.mem_cons.1 hmem with h | h
      · simp [alistGet, ← h]
      · have hk : e.1 ≠ k := by
          intro hek
          exact hnd.1 (hek ▸ (List.mem_map.2 ⟨(k, v), h, rfl⟩))
        simp [alistGet, hk, ih hnd.2 h]

/-! ### Versioned-symbol map lemmas -/

theorem vsymVals_cons (a : String) (vs : List String) (rest : VSymMap) (k1 : String) :
    vsymVals ((a, vs) :: rest) k1 = if a = k1 then vs else vsymVals rest k1 := by
  by_cases h : a = k1 <;> simp [vsymVals, alistGetD, alistGet, h]

theorem mem_vsymVals_add (m : VSymMap) (k k1 v v1 : String) :
    v1 ∈ vsymVals (vsymAdd m k v) k1 ↔ v1 ∈ vsymVals m k1 ∨ (k1 = k ∧ v1 = v) := by
  induction m with
  | nil =>
      show v1 ∈ vsymVals [(k, [v])] k1 ↔ _
      rw [vsymVals_cons]
      by_cases h : k = k1
      · subst h
        simp [vsymVals, alistGetD, alistGet, eq_comm]
      · have hne : ¬ (k1 = k) := fun hh => h hh.symm
        simp [vsymVals, alistGetD, alistGet, h, hne]
  | cons e rest ih =>
      obtain ⟨a, vs⟩ := e
      by_cases he : a = k
      · subst he
        rw [show vsymAdd ((a, vs) :: rest) a v = (a, if v ∈ vs then vs else vs ++ [v]) :: rest
          from by simp [vsymAdd]]
        rw [vsymVals_cons, vsymVals_cons]
        by_cases h1 : a = k1
        · subst h1
          rw [if_pos rfl, if_pos rfl]
          by_cases hv : v ∈ vs
          · rw [if_pos hv]
            simp only [eq_self_iff_true, true_and]
            constructor
            · exact fun h => Or.inl h
            · rintro (h | rfl)
              · exact h
              · exact hv
          · rw [if_neg hv]
            simp [List.mem_append]
        · rw [if_neg h1, if_neg h1]
          constructor
          · exact fun h => Or.inl h
          · rintro (h | ⟨rfl, rfl⟩)
            · exact h
            · exact absurd rfl h1
      · rw [show vsymAdd ((a, vs) :: rest) k v = (a, vs) :: vsymAdd rest k v
          from by simp [vsymAdd, he]]
        rw [vsymVals_cons, vsymVals_cons]
        by_cases h1 : a = k1
        · rw [if_pos h1, if_pos h1]
          constructor
          · exact fun h => Or.inl h
          · rintro (h | ⟨rfl, rfl⟩)
            · exact h
            · exact absurd h1 he
        · rw [if_neg h1, if_neg h1]
          exact ih

theorem mem_vsymVals_addPairs (m : VSymMap) (ps : List (String × String)) (k v : String) :
    v ∈ vsymVals (vsymAddPairs m ps) k ↔ v ∈ vsymVals m k ∨ (k, v) ∈ ps := by
  induction ps generalizing m with
  | nil => simp [vsymAddPairs]
  | cons p rest ih =>
      show v ∈ vsymVals (vsymAddPairs (vsymAdd m p.1 p.2) rest) k ↔ _
      rw [ih, mem_vsymVals_add]
      constructor
      · rintro ((h | ⟨rfl, rfl⟩) | h)
        · exact Or.inl h
        · exact Or.inr (by simp)
        · exact Or.inr (List.mem_cons_of_mem _ h)
      · rintro (h | h)
        · exact Or.inl (Or.inl h)
        · rcases List.mem_cons.1 h with h | h
          · exact Or.inl (Or.inr (by simp [← h]))
          · exact Or.inr h

theorem mem_vsymVals_unionAt (m : VSymMap) (k k1 v1 : String) (vs : List String) :
    v1 ∈ vsymVals (vsymUnionAt m k vs) k1 ↔ v1 ∈ vsymVals m k1 ∨ (k1 = k ∧ v1 ∈ vs) := by
  induction vs generalizing m with
  | nil => simp [vsymUnionAt]
  | cons v rest ih =>
      show v1 ∈ vsymVals (vsymUnionAt (vsymAdd m k v) k rest) k1 ↔ _
      rw [ih, mem_vsymVals_add]
      constructor
      · rintro ((h | ⟨rfl, rfl⟩) | ⟨rfl, h⟩)
        · exact Or.inl h
        · exact Or.inr ⟨rfl, by simp⟩
        · exact Or.inr ⟨rfl, List.mem_cons_of_mem _ h⟩
      · rintro (h | ⟨rfl, h⟩)
        · exact Or.inl (Or.inl h)
        · rcases List.mem_cons.1 h with h | h
          · exact Or.inl (Or.inr ⟨rfl, h⟩)
          · exact Or.inr ⟨rfl, h⟩

theorem vsymSub_refl (a : VSymMap) : vsymSub a a := fun _ _ h => h

theorem vsymSub_add (a b : VSymMap) (k v : String) (h : vsymSub a b) :
    vsymSub (vsymAdd a k v) (vsymAdd b k v) := by
  intro k1 v1 h1
  rw [mem_vsymVals_add] at h1 ⊢
  rcases h1 with h1 | h1
  · exact Or.inl (h k1 v1 h1)
  · exact Or.inr h1

theorem vsymSub_unionAt (a b : VSymMap) (k : String) (vs : List String) (h : vsymSub a b) :
    vsymSub (vsymUnionAt a k vs) (vsymUnionAt b k vs) := by
  intro k1 v1 h1
  rw [mem_vsymVals_unionAt] at h1 ⊢
  rcases h1 with h1 | h1
  · exact Or.inl (h k1 v1 h1)
  · exact Or.inr h1

/-! ### Characterization of the extraction pass -/

theorem p1Run_ok (policies : List Policy) (l : List WheelFile) (st : P1State)
    (hclean : ∀ f ∈ l, elfInPurelib f = false) :
    p1Run policies st l = .ok
      { full := st.full ++ l.filterMap extEntry,
        fullRefs := st.fullRefs ++ l.filterMap (extRefEntry policies),
        nonpy := st.nonpy ++ l.filterMap nonpyEntry,
        vs := vsAccum st.vs l,
        ucs2 := st.ucs2 || l.any ucsFlag,
        fpe := st.fpe || l.any fpeFlag } := by
  induction l generalizing st with
  | nil => simp [p1Run, vsAccum]
  | cons f rest ih =>
      have hf := hclean f (by simp)
      have hrest : ∀ g ∈ rest, elfInPurelib g = false :=
        fun g hg => hclean g (by simp [hg])
      by_cases helf : f.isElf = true
      · have hpl : "purelib" ∉ pathParts f.path := by
          simpa [elfInPurelib, helf] using hf
        by_cases hext : f.isPyExt = true
        · simp [p1Run, p1Step, helf, hpl, hext, ih _ hrest, extEntry, extRefEntry,
            nonpyEntry, vsAccum, ucsFlag, fpeFlag, elfInPurelib, Bool.or_assoc]
        · have hext2 : f.isPyExt = false := by simpa using hext
          simp [p1Run, p1Step, helf, hpl, hext2, ih _ hrest, extEntry, extRefEntry,
            nonpyEntry, vsAccum, ucsFlag, fpeFlag, Bool.or_assoc]
      · have helf2 : f.isElf = false := by simpa using helf
        simp [p1Run, p1Step, helf2, ih _ hrest, extEntry, extRefEntry,
          nonpyEntry, vsAccum, ucsFlag, fpeFlag]

theorem gwe_ok_of_clean (policies : List Policy) (pkg : List WheelFile)
    (hclean : ∀ f ∈ pkg, elfInPurelib f = false) :
    get_wheel_elfdata policies pkg = .ok (gweSpec policies pkg) := by
  unfold get_wheel_elfdata gweSpec
  rw [p1Run_ok policies pkg p1Init hclean]
  simp [p1Init, neededOf]

theorem p1Run_error (policies : List Policy) (l : List WheelFile) (st : P1State)
    (h : ∃ f ∈ l, elfInPurelib f = true) :
    ∃ e, p1Run policies st l = .error e := by
  induction l generalizing st with
  | nil => simp at h
  | cons f rest ih =>
      by_cases hf : elfInPurelib f = true
      · have hfc := hf
        simp only [elfInPurelib, Bool.and_eq_true] at hfc
        have helf : f.isElf = true := hfc.1
        have hpl : "purelib" ∈ pathParts f.path := by
          simpa using hfc.2
        exact ⟨purelibMsg f, by simp [p1Run, p1Step, helf, hpl]⟩
      · have hrest : ∃ g ∈ rest, elfInPurelib g = true := by
          rcases h with ⟨g, hg, hgt⟩
          rcases List.mem_cons.1 hg with rfl | hg2
          · exact absurd hgt hf
          · exact ⟨g, hg2, hgt⟩
        cases hps : p1Step policies st f with
        | error e =>
            exfalso
            revert hps
            unfold p1Step
            by_cases helf : f.isElf = true
            · have hpl : "purelib" ∉ pathParts f.path := by
                intro hmem
                exact hf (by simp [elfInPurelib, helf, hmem])
              by_cases hext : f.isPyExt = true
              · simp [helf, hpl, hext]
              · have hext2 : f.isPyExt = false := by simpa using hext
                simp [helf, hpl, hext2]
            · have helf2 : f.isElf = false := by simpa using helf
              simp [helf2]
        | ok st1 =>
            obtain ⟨e, he⟩ := ih st1 hrest
            exact ⟨e, by simp [p1Run, hps, he]⟩

theorem gwe_error (policies : List Policy) (pkg : List WheelFile)
    (h : ∃ f ∈ pkg, elfInPurelib f = true) :
    ∃ e, get_wheel_elfdata policies pkg = .error e := by
  obtain ⟨e, he⟩ := p1Run_error policies pkg p1Init h
  exact ⟨e, by simp [get_wheel_elfdata, he]⟩

theorem gwe_ok_elim (policies : List Policy) (pkg : List WheelFile) (d : WheelElfData)
    (hok : get_wheel_elfdata policies pkg = .ok d) :
    (∀ f ∈ pkg, elfInPurelib f = false) ∧ d = gweSpec policies pkg := by
  by_cases hclean : ∀ f ∈ pkg, elfInPurelib f = false
  · have h2 := gwe_ok_of_clean policies pkg hclean
    rw [hok] at h2
    exact ⟨hclean, Except.ok.inj h2⟩
  · exfalso
    push_neg at hclean
    obtain ⟨f, hfmem, hft⟩ := hclean
    have hT : elfInPurelib f = true := by
      cases hE : elfInPurelib f
      · exact absurd hE hft
      · rfl
    obtain ⟨e, he⟩ := gwe_error policies pkg ⟨f, hfmem, hT⟩
    rw [hok] at he
    exact Except.noConfusion he

/-! ### Lemmas about the generic update and the external-libs fold -/

theorem entGet_set_self (es : PyEntries) (k : String) (v : PyVal) :
    entGet (entSet es k v) k = some v := by
  induction es using pyEntriesInduction with
  | hnil => simp [entSet, entGet]
  | hcons k1 v1 rest ih =>
      by_cases h : k1 = k
      · simp [entSet, entGet, h]
      · simp [entSet, entGet, h, ih]

theorem mem_entKeys_set (es : PyEntries) (k a : String) (v : PyVal) :
    a ∈ entKeys (entSet es k v) ↔ a ∈ entKeys es ∨ a = k := by
  induction es using pyEntriesInduction with
  | hnil => simp [entSet, entKeys, PyEntries.toList]
  | hcons k1 v1 rest ih =>
      by_cases h : k1 = k
      · subst h
        by_cases ha : a = k1 <;> simp [entSet, entKeys, PyEntries.toList, ha]
      · simp only [entSet, if_neg h, entKeys, PyEntries.toList, List.map_cons,
          List.mem_cons] at ih ⊢
        tauto

theorem nodup_entKeys_set (es : PyEntries) (k : String) (v : PyVal)
    (h : (entKeys es).Nodup) : (entKeys (entSet es k v)).Nodup := by
  induction es using pyEntriesInduction with
  | hnil => simp [entSet, entKeys, PyEntries.toList]
  | hcons k1 v1 rest ih =>
      simp only [entKeys, PyEntries.toList, List.map_cons, List.nodup_cons] at h
      by_cases hk : k1 = k
      · simp only [entSet, if_pos hk]
        simpa [entKeys, PyEntries.toList, List.nodup_cons] using h
      · simp only [entSet, if_neg hk, entKeys, PyEntries.toList, List.map_cons,
          List.nodup_cons]
        refine ⟨fun hmem => ?_, ih h.2⟩
        rcases (mem_entKeys_set rest k k1 v).1 hmem with h1 | h1
        · exact h.1 h1
        · exact hk h1

theorem mem_entKeys_updateEntries (d u : PyEntries) (a : String)
    (h : a ∈ entKeys d) : a ∈ entKeys (updateEntries d u) := by
  induction u using pyEntriesInduction generalizing d with
  | hnil => exact h
  | hcons k v rest ih =>
      show a ∈ entKeys (updateEntries (entSet d k _) rest)
      exact ih _ ((mem_entKeys_set d k a _).2 (Or.inl h))

theorem nodup_entKeys_updateEntries (d u : PyEntries)
    (hd : (entKeys d).Nodup) : (entKeys (updateEntries d u)).Nodup := by
  induction u using pyEntriesInduction generalizing d with
  | hnil => exact hd
  | hcons k v rest ih =>
      show (entKeys (updateEntries (entSet d k _) rest)).Nodup
      exact ih _ (nodup_entKeys_set d k _ hd)

theorem updateEntries_single_str (d : PyEntries) (k s : String) :
    updateEntries d (PyEntries.cons k (PyVal.str s) PyEntries.nil)
      = entSet d k (PyVal.str s) := rfl

theorem alistHasKey_iff {α : Type} (l : List (String × α)) (k : String) :
    alistHasKey l k = true ↔ k ∈ l.map Prod.fst := by
  simp only [alistHasKey, List.any_eq_true, List.mem_map, decide_eq_true_eq]

theorem nodup_keys_extLibsAddLib (result : List (String × String)) (lib : String × PyVal)
    (h : (result.map Prod.fst).Nodup) : ((extLibsAddLib result lib).map Prod.fst).Nodup := by
  obtain ⟨so, v⟩ := lib
  cases v with
  | str rp =>
      show ((if rp ≠ "" ∧ alistHasKey result rp = false
          then result ++ [(rp, so)] else result).map Prod.fst).Nodup
      by_cases hc : rp ≠ "" ∧ alistHasKey result rp = false
      · rw [if_pos hc]
        have hnot : rp ∉ result.map Prod.fst := by
          intro hmem
          rw [← alistHasKey_iff] at hmem
          rw [hc.2] at hmem
          exact Bool.noConfusion hmem
        simp [List.nodup_append, h, hnot]
      · rw [if_neg hc]; exact h
  | int n => exact h
  | none => exact h
  | dict es => exact h

theorem nodup_keys_extLibsFold (libs : List (String × PyVal))
    (result : List (String × String)) (h : (result.map Prod.fst).Nodup) :
    ((libs.foldl extLibsAddLib result).map Prod.fst).Nodup := by
  induction libs generalizing result with
  | nil => exact h
  | cons lib rest ih => exact ih _ (nodup_keys_extLibsAddLib result lib h)

theorem nodup_keys_extLibsAddPolicy (result : List (String × String)) (e : String × PyVal)
    (h : (result.map Prod.fst).Nodup) :
    ((extLibsAddPolicy result e).map Prod.fst).Nodup := by
  unfold extLibsAddPolicy
  by_cases hp : pvPriorityD e.2 = 0
  · rw [if_pos hp]; exact h
  · rw [if_neg hp]; exact nodup_keys_extLibsFold _ _ h

theorem nodup_keys_extLibsPolicyFold (entries : List (String × PyVal))
    (result : List (String × String)) (h : (result.map Prod.fst).Nodup) :
    ((entries.foldl extLibsAddPolicy result).map Prod.fst).Nodup := by
  induction entries generalizing result with
  | nil => exact h
  | cons e rest ih => exact ih _ (nodup_keys_extLibsAddPolicy result e h)

theorem nodup_keys_get_external_libs (er : PyVal) :
    ((get_external_libs er).map Prod.fst).Nodup :=
  nodup_keys_extLibsPolicyFold (pvEntries er) [] (by simp)

theorem assoc_value_unique {α : Type} (l : List (String × α)) (k : String) (a b : α)
    (hnd : (l.map Prod.fst).Nodup) (ha : (k, a) ∈ l) (hb : (k, b) ∈ l) : a = b := by
  have h1 := alistGet_of_mem l k a hnd ha
  have h2 := alistGet_of_mem l k b hnd hb
  rw [h1] at h2
  exact Option.some.inj h2

/-! ### Membership characterizations of the extraction result -/

theorem extEntry_eq_some (f : WheelFile) (x : String × ElfTree) :
    extEntry f = some x ↔ (f.isElf = true ∧ f.isPyExt = true) ∧ x = (f.path, f.tree) := by
  unfold extEntry
  by_cases h : f.isElf && f.isPyExt
  · simp only [Bool.and_eq_true] at h
    simp [h, eq_comm]
  · simp only [Bool.and_eq_true] at h
    rw [if_neg (by simpa [Bool.and_eq_true] using h)]
    simp
    tauto

theorem nonpyEntry_eq_some (f : WheelFile) (x : String × ElfTree) :
    nonpyEntry f = some x ↔ (f.isElf = true ∧ f.isPyExt = false) ∧ x = (f.path, f.tree) := by
  unfold nonpyEntry
  by_cases h : f.isElf && !f.isPyExt
  · have h2 := h
    simp only [Bool.and_eq_true, Bool.not_eq_true'] at h2
    simp [h, h2, eq_comm]
  · have h2 := h
    simp only [Bool.and_eq_true, Bool.not_eq_true'] at h2
    rw [if_neg h]
    simp
    tauto

theorem mem_needed_spec (pkg : List WheelFile) (n : String) :
    n ∈ (pkg.filterMap extEntry ++ pkg.filterMap nonpyEntry).flatMap (fun e => e.2.needed)
      ↔ n ∈ neededLibs pkg := by
  simp only [List.mem_flatMap, List.mem_append, List.mem_filterMap, neededLibs,
    List.mem_filter, extEntry_eq_some, nonpyEntry_eq_some]
  constructor
  · rintro ⟨e, (⟨f, hf, ⟨⟨helf, hext⟩, rfl⟩⟩ | ⟨f, hf, ⟨⟨helf, hext⟩, rfl⟩⟩), hn⟩ <;>
      exact ⟨f, ⟨hf, by simp [helf]⟩, hn⟩
  · rintro ⟨f, ⟨hf, helfb⟩, hn⟩
    have helf : f.isElf = true := by simpa using helfb
    by_cases hext : f.isPyExt = true
    · exact ⟨(f.path, f.tree), Or.inl ⟨f, hf, ⟨⟨helf, hext⟩, rfl⟩⟩, hn⟩
    · have hext2 : f.isPyExt = false := by simpa using hext
      exact ⟨(f.path, f.tree), Or.inr ⟨f, hf, ⟨⟨helf, hext2⟩, rfl⟩⟩, hn⟩

theorem gweSpec_fullElftree (policies : List Policy) (pkg : List WheelFile) :
    (gweSpec policies pkg).fullElftree =
      pkg.filterMap extEntry ++ (pkg.filterMap nonpyEntry).filter
        (fun e => ¬ ((pkg.filterMap extEntry ++ pkg.filterMap nonpyEntry).flatMap
          (fun e2 => e2.2.needed)).contains (pathBasename e.1)) := rfl

theorem gweSpec_versionedSymbols (policies : List Policy) (pkg : List WheelFile) :
    (gweSpec policies pkg).versionedSymbols = vsAccum [] pkg := rfl

theorem gweSpec_usesUcs2 (policies : List Policy) (pkg : List WheelFile) :
    (gweSpec policies pkg).usesUcs2 = pkg.any ucsFlag := rfl

theorem gweSpec_usesPyFPE (policies : List Policy) (pkg : List WheelFile) :
    (gweSpec policies pkg).usesPyFPE = pkg.any fpeFlag := rfl

theorem mem_vsAccum (l : List WheelFile) (m : VSymMap) (k v : String) :
    v ∈ vsymVals (vsAccum m l) k ↔
      v ∈ vsymVals m k ∨ ∃ f ∈ l, f.isElf = true ∧ (k, v) ∈ f.symPairs := by
  induction l generalizing m with
  | nil => simp [vsAccum]
  | cons f rest ih =>
      show v ∈ vsymVals (vsAccum (if f.isElf = true then vsymAddPairs m f.symPairs else m) rest) k ↔ _
      by_cases helf : f.isElf = true
      · rw [if_pos helf, ih, mem_vsymVals_addPairs]
        constructor
        · rintro ((h | h) | h)
          · exact Or.inl h
          · exact Or.inr ⟨f, by simp, helf, h⟩
          · rcases h with ⟨g, hg, hgelf, hgp⟩
            exact Or.inr ⟨g, by simp [hg], hgelf, hgp⟩
        · rintro (h | ⟨g, hg, hgelf, hgp⟩)
          · exact Or.inl (Or.inl h)
          · rcases List.mem_cons.1 hg with rfl | hg2
            · exact Or.inl (Or.inr hgp)
            · exact Or.inr ⟨g, hg2, hgelf, hgp⟩
      · rw [if_neg helf, ih]
        constructor
        · rintro (h | ⟨g, hg, hgelf, hgp⟩)
          · exact Or.inl h
          · exact Or.inr ⟨g, by simp [hg], hgelf, hgp⟩
        · rintro (h | ⟨g, hg, hgelf, hgp⟩)
          · exact Or.inl h
          · rcases List.mem_cons.1 hg with rfl | hg2
            · exact absurd hgelf helf
            · exact Or.inr ⟨g, hg2, hgelf, hgp⟩

/-! ### Monotonicity of the symbol verdict in the package symbol set -/

theorem vsymSub_unionFold (ext : VSymMap) (a b : VSymMap) (h : vsymSub a b) :
    vsymSub (ext.foldl (fun acc kv => vsymUnionAt acc kv.1 kv.2) a)
      (ext.foldl (fun acc kv => vsymUnionAt acc kv.1 kv.2) b) := by
  induction ext generalizing a b with
  | nil => exact h
  | cons kv rest ih => exact ih _ _ (vsymSub_unionAt a b kv.1 kv.2 h)

theorem vsymSub_gspApplyLib (extVS : List (String × VSymMap)) (lib : String × PyVal)
    (a b : VSymMap) (h : vsymSub a b) :
    vsymSub (gspApplyLib extVS a lib) (gspApplyLib extVS b lib) := by
  unfold gspApplyLib
  cases alistGet extVS lib.1 with
  | none => exact h
  | some ext => exact vsymSub_unionFold ext a b h

theorem vsymSub_gspPolicySymbols (extVS : List (String × VSymMap)) (e : String × PyVal)
    (vs vs1 : VSymMap) (h : vsymSub vs vs1) :
    vsymSub (gspPolicySymbols extVS vs e) (gspPolicySymbols extVS vs1 e) := by
  unfold gspPolicySymbols
  generalize pvLibs e.2 = libs
  induction libs generalizing vs vs1 with
  | nil => exact h
  | cons lib rest ih => exact ih _ _ (vsymSub_gspApplyLib extVS lib vs vs1 h)

theorem foldl_append_filterMap (entries : List (String × PyVal))
    (g : String × PyVal → Option (Int × VSymMap)) (acc : List (Int × VSymMap)) :
    entries.foldl (fun result e =>
        match g e with
        | Option.none => result
        | some x => result ++ [x]) acc = acc ++ entries.filterMap g := by
  induction entries generalizing acc with
  | nil => simp
  | cons e rest ih =>
      cases hg : g e with
      | none => simp [List.foldl_cons, hg, ih, List.filterMap_cons]
      | some x => simp [List.foldl_cons, hg, ih, List.filterMap_cons]

theorem gsp_eq_filterMap (vsp : VSymMap → Int) (vs : VSymMap)
    (extVS : List (String × VSymMap)) (er : PyVal) :
    get_symbol_policies vsp vs extVS er = (pvEntries er).filterMap
      (fun e => if pvPriorityD e.2 = 0 then Option.none
        else some (vsp (gspPolicySymbols extVS vs e), gspPolicySymbols extVS vs e)) := by
  unfold get_symbol_policies
  have h := foldl_append_filterMap (pvEntries er)
    (fun e => if pvPriorityD e.2 = 0 then Option.none
      else some (vsp (gspPolicySymbols extVS vs e), gspPolicySymbols extVS vs e)) []
  simp only [List.nil_append] at h
  rw [← h]
  congr 1
  funext result e
  by_cases hp : pvPriorityD e.2 = 0 <;> simp [hp]

theorem gsp_rel (vsp : VSymMap → Int) (hmono : ∀ a b, vsymSub a b → vsp a ≤ vsp b)
    (vs vs1 : VSymMap) (extVS : List (String × VSymMap)) (er : PyVal)
    (hsub : vsymSub vs vs1) :
    List.Forall₂ (fun x y => x.1 ≤ y.1)
      (get_symbol_policies vsp vs extVS er) (get_symbol_policies vsp vs1 extVS er) := by
  rw [gsp_eq_filterMap, gsp_eq_filterMap]
  induction pvEntries er with
  | nil => simp
  | cons e rest ih =>
      by_cases hp : pvPriorityD e.2 = 0
      · simpa [List.filterMap_cons, hp] using ih
      · simp only [List.filterMap_cons, if_neg hp]
        exact List.Forall₂.cons
          (hmono _ _ (vsymSub_gspPolicySymbols extVS e vs vs1 hsub)) ih

theorem foldl_pick_fst (l : List (Int × VSymMap)) (b : Int × VSymMap) :
    (l.foldl (fun b y => if y.1 > b.1 then y else b) b).1 =
      l.foldl (fun a y => max a y.1) b.1 := by
  induction l generalizing b with
  | nil => rfl
  | cons y rest ih =>
      rw [List.foldl_cons, List.foldl_cons, ih]
      congr 1
      by_cases hy : y.1 > b.1
      · rw [if_pos hy]
        exact (max_eq_right (le_of_lt hy)).symm
      · rw [if_neg hy]
        exact (max_eq_left (le_of_not_lt hy)).symm

theorem foldl_maxfst_mono (l l1 : List (Int × VSymMap))
    (hrel : List.Forall₂ (fun x y => x.1 ≤ y.1) l l1)
    (a b : Int) (hab : a ≤ b) :
    l.foldl (fun a y => max a y.1) a ≤ l1.foldl (fun a y => max a y.1) b := by
  induction hrel generalizing a b with
  | nil => exact hab
  | cons hxy _ ih => exact ih _ _ (max_le_max hab hxy)

theorem maxByFst_fst_mono (l l1 : List (Int × VSymMap))
    (hrel : List.Forall₂ (fun x y => x.1 ≤ y.1) l l1)
    (dflt dflt1 : Int × VSymMap) (hd : dflt.1 ≤ dflt1.1) :
    (maxByFst l dflt).1 ≤ (maxByFst l1 dflt1).1 := by
  cases hrel with
  | nil => exact hd
  | cons hxy htail =>
      unfold maxByFst
      rw [foldl_pick_fst, foldl_pick_fst]
      exact foldl_maxfst_mono _ _ htail _ _ hxy

theorem symbolVerdict_fst_mono (vsp : VSymMap → Int)
    (extEnv : String → Option (List (String × String))) (policies : List Policy)
    (d d1 : WheelElfData) (hmono : ∀ a b, vsymSub a b → vsp a ≤ vsp b)
    (hrefs : d1.fullExternalRefs = d.fullExternalRefs)
    (hsub : vsymSub d.versionedSymbols d1.versionedSymbols) :
    (symbolVerdict vsp extEnv policies d).1 ≤ (symbolVerdict vsp extEnv policies d1).1 := by
  unfold symbolVerdict
  have her : externalRefsOf policies d1 = externalRefsOf policies d := by
    unfold externalRefsOf
    rw [hrefs]
  rw [her]
  exact maxByFst_fst_mono _ _
    (gsp_rel vsp hmono d.versionedSymbols d1.versionedSymbols _ _ hsub) _ _
    (hmono _ _ hsub)

theorem filterMap_set_congr {α β : Type} (l : List α) (i : Nat) (a : α) (g : α → Option β)
    (hi : i < l.length) (hg : g a = g (l.get ⟨i, hi⟩)) :
    (l.set i a).filterMap g = l.filterMap g := by
  induction l generalizing i with
  | nil => simp at hi
  | cons x rest ih =>
      cases i with
      | zero =>
          have hg0 : g a = g x := hg
          simp [List.set, List.filterMap_cons, hg0]
      | succ n =>
          have hn : n < rest.length := by simpa using hi
          have hgn : g a = g (rest.get ⟨n, hn⟩) := hg
          simp only [List.set, List.filterMap_cons]
          rw [ih n hn hgn]

theorem any_set_congr {α : Type} (l : List α) (i : Nat) (a : α) (g : α → Bool)
    (hi : i < l.length) (hg : g a = g (l.get ⟨i, hi⟩)) :
    (l.set i a).any g = l.any g := by
  induction l generalizing i with
  | nil => simp at hi
  | cons x rest ih =>
      cases i with
      | zero =>
          have hg0 : g a = g x := hg
          simp [List.set, List.any_cons, hg0]
      | succ n =>
          have hn : n < rest.length := by simpa using hi
          have hgn : g a = g (rest.get ⟨n, hn⟩) := hg
          simp only [List.set, List.any_cons]
          rw [ih n hn hgn]

theorem gweSpec_fullExternalRefs (policies : List Policy) (pkg : List WheelFile) :
    (gweSpec policies pkg).fullExternalRefs =
      pkg.filterMap (extRefEntry policies) ++
        ((pkg.filterMap nonpyEntry).filter
          (fun e => ¬ ((pkg.filterMap extEntry ++ pkg.filterMap nonpyEntry).flatMap
            (fun e2 => e2.2.needed)).contains (pathBasename e.1))).map
          (fun e => (e.1, lddtreeExternalReferences policies e.2)) := rfl

/-! ### The symbol verdict when no external libraries are found -/

theorem gsp_all_eq (vsp : VSymMap → Int) (vs : VSymMap) (extVS : List (String × VSymMap))
    (er : PyVal) (h : ∀ e ∈ pvEntries er, (pvLibs e.2).isEmpty = true) :
    ∀ x ∈ get_symbol_policies vsp vs extVS er, x = (vsp vs, vs) := by
  rw [gsp_eq_filterMap]
  intro x hx
  rcases List.mem_filterMap.1 hx with ⟨e, he, hge⟩
  by_cases hp : pvPriorityD e.2 = 0
  · rw [if_pos hp] at hge
    exact Option.noConfusion hge
  · rw [if_neg hp] at hge
    have hlibs : pvLibs e.2 = [] := by
      have := h e he
      simpa using this
    have hps : gspPolicySymbols extVS vs e = vs := by
      unfold gspPolicySymbols
      rw [hlibs]
      rfl
    rw [hps] at hge
    exact (Option.some.inj hge).symm

theorem maxByFst_const (l : List (Int × VSymMap)) (a : Int × VSymMap)
    (h : ∀ x ∈ l, x = a) : maxByFst l a = a := by
  cases l with
  | nil => rfl
  | cons x xs =>
      have hx : x = a := h x (by simp)
      subst hx
      show xs.foldl (fun b y => if y.1 > b.1 then y else b) x = x
      have hxs : ∀ y ∈ xs, y = x := fun y hy => h y (by simp [hy])
      induction xs with
      | nil => rfl
      | cons y ys ih =>
          have hy : y = x := hxs y (by simp)
          subst hy
          rw [List.foldl_cons, if_neg (lt_irrefl _)]
          exact ih (fun z hz => h z (by simp [hz])) (fun z hz => hxs z (by simp [hz]))

/-! ### Claim theorems -/

/-- Claim C1: for every analyzed package, the overall tag returned by
`analyze_wheel_abi` is the policy name of the minimum of the four sub-tag
priorities (symbol-version, reference-whitelist, legacy-unicode,
floating-point-exception-buffer), and that minimum is at most each of the
four sub-tag priorities, so the overall tag is never a more permissive
policy than any sub-tag. -/
theorem claim1_overall_tag_is_min (policies : List Policy) (vsp : VSymMap → Int)
    (extEnv : String → Option (List (String × String))) (pkg : List WheelFile)
    (d : WheelElfData) (hok : get_wheel_elfdata policies pkg = .ok d) :
    ∃ info, analyze_wheel_abi policies vsp extEnv pkg = .ok info ∧
      info.overallTag = getPolicyName policies
        (min (min (symbolVerdict vsp extEnv policies d).1 (refPolicyOf policies d))
          (min (ucsPolicyOf policies d) (pyfpePolicyOf policies d))) ∧
      min (min (symbolVerdict vsp extEnv policies d).1 (refPolicyOf policies d))
          (min (ucsPolicyOf policies d) (pyfpePolicyOf policies d))
        ≤ (symbolVerdict vsp extEnv policies d).1 ∧
      min (min (symbolVerdict vsp extEnv policies d).1 (refPolicyOf policies d))
          (min (ucsPolicyOf policies d) (pyfpePolicyOf policies d))
        ≤ refPolicyOf policies d ∧
      min (min (symbolVerdict vsp extEnv policies d).1 (refPolicyOf policies d))
          (min (ucsPolicyOf policies d) (pyfpePolicyOf policies d))
        ≤ ucsPolicyOf policies d ∧
      min (min (symbolVerdict vsp extEnv policies d).1 (refPolicyOf policies d))
          (min (ucsPolicyOf policies d) (pyfpePolicyOf policies d))
        ≤ pyfpePolicyOf policies d := by
  have heq : analyze_wheel_abi policies vsp extEnv pkg = .ok
      { overallTag := getPolicyName policies
          (min (min (symbolVerdict vsp extEnv policies d).1 (refPolicyOf policies d))
            (min (ucsPolicyOf policies d) (pyfpePolicyOf policies d))),
        externalRefs := externalRefsOf policies d,
        refTag := getPolicyName policies (refPolicyOf policies d),
        versionedSymbols := (symbolVerdict vsp extEnv policies d).2,
        symTag := getPolicyName policies (symbolVerdict vsp extEnv policies d).1,
        ucsTag := getPolicyName policies (ucsPolicyOf policies d),
        pyfpeTag := getPolicyName policies (pyfpePolicyOf policies d) } := by
    simp only [analyze_wheel_abi, hok]
  exact ⟨_, heq, rfl, (min_le_left _ _).trans (min_le_left _ _),
    (min_le_left _ _).trans (min_le_right _ _),
    (min_le_right _ _).trans (min_le_left _ _),
    (min_le_right _ _).trans (min_le_right _ _)⟩

/-- Claim C2 (amended): after classifying objects, a non-extension ELF
object is analyzed at top level if and only if its basename does not appear
in the union of all ELF objects' needed library names.  (The further claim
that every reachable external dependency is then visited exactly once at
top level is refuted by `claim2_counterexample`: mutually-consuming
non-extension objects are never promoted, so their external dependencies
can be visited zero times.) -/
theorem claim2_amended (policies : List Policy) (pkg : List WheelFile) (d : WheelElfData)
    (f : WheelFile) (hnodup : (pkg.map (fun g => g.path)).Nodup)
    (hf : f ∈ pkg) (helf : f.isElf = true) (hext : f.isPyExt = false)
    (hok : get_wheel_elfdata policies pkg = .ok d) :
    f.path ∈ d.fullElftree.map Prod.fst ↔ pathBasename f.path ∉ neededLibs pkg := by
  obtain ⟨-, rfl⟩ := gwe_ok_elim policies pkg d hok
  rw [gweSpec_fullElftree]
  constructor
  · intro hmem
    rcases List.mem_map.1 hmem with ⟨x, hx, hpx⟩
    rcases List.mem_append.1 hx with hA | hP
    · exfalso
      rcases List.mem_filterMap.1 hA with ⟨g, hg, hge⟩
      rw [extEntry_eq_some] at hge
      obtain ⟨⟨hgelf, hgext⟩, rfl⟩ := hge
      have hgf : g = f :=
        List.inj_on_of_nodup_map hnodup hg hf (by simpa using hpx)
      rw [hgf] at hgext
      rw [hext] at hgext
      exact Bool.noConfusion hgext
    · rcases List.mem_filter.1 hP with ⟨hB, hpred⟩
      rcases List.mem_filterMap.1 hB with ⟨g, hg, hge⟩
      rw [nonpyEntry_eq_some] at hge
      obtain ⟨⟨hgelf, hgext⟩, rfl⟩ := hge
      have hpath : g.path = f.path := by simpa using hpx
      rw [hpath] at hpred
      simp only [decide_eq_true_eq] at hpred
      intro hmem2
      apply hpred
      have hin := (mem_needed_spec pkg (pathBasename f.path)).2 hmem2
      simpa using hin
  · intro hnot
    have hBmem : (f.path, f.tree) ∈ pkg.filterMap nonpyEntry :=
      List.mem_filterMap.2 ⟨f, hf, (nonpyEntry_eq_some f _).2 ⟨⟨helf, hext⟩, rfl⟩⟩
    refine List.mem_map.2 ⟨(f.path, f.tree), List.mem_append.2 (Or.inr ?_), rfl⟩
    refine List.mem_filter.2 ⟨hBmem, ?_⟩
    simp only [decide_eq_true_eq]
    intro hcontains
    apply hnot
    apply (mem_needed_spec pkg (pathBasename f.path)).1
    simpa using hcontains

/-- Claim C5: when no external (non-whitelisted) libraries were found for
any policy, the symbol sub-tag priority and the reported versioned-symbol
set are exactly the priority-from-symbols value of the package's own
versioned-symbol set and that set itself. -/
theorem claim5_no_external_fallback (policies : List Policy) (vsp : VSymMap → Int)
    (extEnv : String → Option (List (String × String))) (d : WheelElfData)
    (h : ∀ e ∈ pvEntries (externalRefsOf policies d), (pvLibs e.2).isEmpty = true) :
    symbolVerdict vsp extEnv policies d = (vsp d.versionedSymbols, d.versionedSymbols) := by
  unfold symbolVerdict
  exact maxByFst_const _ _ (gsp_all_eq vsp d.versionedSymbols _ _ h)

/-- Claim C6: with the priority-from-symbols function monotone with respect
to pointwise containment of versioned-symbol sets, enlarging one object's
own versioned-symbol stream can only keep the symbol sub-tag priority the
same or raise it towards a stricter-to-satisfy policy (priority moves
weakly upward, never downward), i.e. the verdict never becomes laxer about
the symbols than before. -/
theorem claim6_symbol_monotone (policies : List Policy) (vsp : VSymMap → Int)
    (extEnv : String → Option (List (String × String))) (pkg : List WheelFile)
    (i : Nat) (extra : List (String × String))
    (hmono : ∀ a b, vsymSub a b → vsp a ≤ vsp b) (hi : i < pkg.length)
    (d d1 : WheelElfData)
    (hok : get_wheel_elfdata policies pkg = .ok d)
    (hok1 : get_wheel_elfdata policies
      (pkg.set i (enlargeSyms (pkg.get ⟨i, hi⟩) extra)) = .ok d1) :
    (symbolVerdict vsp extEnv policies d).1 ≤ (symbolVerdict vsp extEnv policies d1).1 := by
  obtain ⟨-, rfl⟩ := gwe_ok_elim policies pkg d hok
  obtain ⟨-, rfl⟩ := gwe_ok_elim policies _ d1 hok1
  have hA : (pkg.set i (enlargeSyms (pkg.get ⟨i, hi⟩) extra)).filterMap extEntry
      = pkg.filterMap extEntry :=
    filterMap_set_congr pkg i _ extEntry hi (by simp [extEntry, enlargeSyms])
  have hB : (pkg.set i (enlargeSyms (pkg.get ⟨i, hi⟩) extra)).filterMap nonpyEntry
      = pkg.filterMap nonpyEntry :=
    filterMap_set_congr pkg i _ nonpyEntry hi (by simp [nonpyEntry, enlargeSyms])
  have hC : (pkg.set i (enlargeSyms (pkg.get ⟨i, hi⟩) extra)).filterMap (extRefEntry policies)
      = pkg.filterMap (extRefEntry policies) :=
    filterMap_set_congr pkg i _ (extRefEntry policies) hi
      (by simp [extRefEntry, enlargeSyms])
  apply symbolVerdict_fst_mono vsp extEnv policies _ _ hmono
  · rw [gweSpec_fullExternalRefs, gweSpec_fullExternalRefs, hA, hB, hC]
  · intro k v hv
    rw [gweSpec_versionedSymbols, mem_vsAccum] at hv ⊢
    rcases hv with hv | ⟨f, hfmem, hfelf, hfp⟩
    · exact Or.inl hv
    · obtain ⟨j, hj, hjf⟩ := List.getElem_of_mem hfmem
      by_cases hij : j = i
      · subst hij
        refine Or.inr ⟨enlargeSyms (pkg.get ⟨j, hj⟩) extra, ?_, ?_, ?_⟩
        · have hlen : j < (pkg.set j (enlargeSyms (pkg.get ⟨j, hj⟩) extra)).length := by
            simpa [List.length_set] using hj
          have hmem2 := List.getElem_mem hlen
          rw [List.getElem_set_self] at hmem2
          exact hmem2
        · simpa [enlargeSyms] using (hjf ▸ hfelf)
        · have hin : (k, v) ∈ (pkg.get ⟨j, hj⟩).symPairs := by
            rw [show pkg.get ⟨j, hj⟩ = f from hjf]
            exact hfp
          show (k, v) ∈ (enlargeSyms (pkg.get ⟨j, hj⟩) extra).symPairs
          simp only [enlargeSyms, List.mem_append]
          exact Or.inl hin
      · refine Or.inr ⟨f, ?_, hfelf, hfp⟩
        have hlen : j < (pkg.set i (enlargeSyms (pkg.get ⟨i, hi⟩) extra)).length := by
          simpa [List.length_set] using hj
        have := List.getElem_set_ne (l := pkg) (i := i) (j := j)
          (a := enlargeSyms (pkg.get ⟨i, hi⟩) extra) (fun hh => hij hh.symm) hlen
        rw [← hjf, ← this]
        exact List.getElem_mem hlen

/-- Claim C7: a package containing an ELF binary under a path with a
purelib component makes the analysis abort with the fatal malformed-package
error; `analyze_wheel_abi` returns no verdict at all. -/
theorem claim7_purelib_fatal (policies : List Policy) (vsp : VSymMap → Int)
    (extEnv : String → Option (List (String × String))) (pkg : List WheelFile)
    (h : ∃ f ∈ pkg, f.isElf = true ∧ "purelib" ∈ pathParts f.path) :
    ∃ e, analyze_wheel_abi policies vsp extEnv pkg = .error e := by
  obtain ⟨f, hf, helf, hmem⟩ := h
  have hT : elfInPurelib f = true := by simp [elfInPurelib, helf, hmem]
  obtain ⟨e, he⟩ := gwe_error policies pkg ⟨f, hf, hT⟩
  exact ⟨e, by simp [analyze_wheel_abi, he]⟩

/-- Claim C8 (amended): the narrow-unicode flag is set iff some Python
extension object of the older runtime generation (major version 2) has at
least one narrow-unicode tagged symbol, regardless of how many; the
floating-point-exception-buffer flag is set iff some Python extension
object references the exact symbol name.  (Extension objects only: a
non-extension object analyzed at top level is never checked, refuting the
original quantification over every analyzed object —
`claim8_counterexample`.) -/
theorem claim8_amended (policies : List Policy) (pkg : List WheelFile) (d : WheelElfData)
    (hok : get_wheel_elfdata policies pkg = .ok d) :
    (d.usesUcs2 = true ↔
      ∃ f ∈ pkg, f.isElf = true ∧ f.isPyExt = true ∧ f.pyVer = 2 ∧ f.ucs2Syms ≠ []) ∧
    (d.usesPyFPE = true ↔
      ∃ f ∈ pkg, f.isElf = true ∧ f.isPyExt = true ∧ elfReferencesPyFPEJbuf f = true) := by
  obtain ⟨-, rfl⟩ := gwe_ok_elim policies pkg d hok
  constructor
  · rw [gweSpec_usesUcs2, List.any_eq_true]
    constructor
    · rintro ⟨f, hf, hflag⟩
      simp only [ucsFlag, Bool.and_eq_true, decide_eq_true_eq, Bool.not_eq_true',
        List.isEmpty_eq_false] at hflag
      exact ⟨f, hf, hflag.1, hflag.2.1, hflag.2.2.1, hflag.2.2.2⟩
    · rintro ⟨f, hf, helf, hext, hver, hne⟩
      refine ⟨f, hf, ?_⟩
      simp [ucsFlag, helf, hext, hver, List.isEmpty_eq_false, hne]
  · rw [gweSpec_usesPyFPE, List.any_eq_true]
    constructor
    · rintro ⟨f, hf, hflag⟩
      simp only [fpeFlag, Bool.and_eq_true] at hflag
      exact ⟨f, hf, hflag.1, hflag.2.1, hflag.2.2⟩
    · rintro ⟨f, hf, helf, hext, hrefs⟩
      refine ⟨f, hf, ?_⟩
      simp [fpeFlag, helf, hext, hrefs]

/-- Claim C9 (amended): the memo of `get_wheel_elfdata` is keyed by the
wheel path alone, so a second call for a path already in the memo returns
the memoized result unchanged — even if the underlying package content has
changed since — and leaves the memo as it is.  (The original claim of
invalidation on content change is refuted by `claim9_counterexample`.) -/
theorem claim9_amended (policies : List Policy) (env : String → List WheelFile)
    (cache : List (String × WheelElfData)) (wheelFn : String) (d : WheelElfData)
    (h : alistGet cache wheelFn = some d) :
    get_wheel_elfdata_cached policies env cache wheelFn = (.ok d, cache) := by
  unfold get_wheel_elfdata_cached
  rw [h]

/-- Claim C10: the package's own versioned-symbol set holds exactly the
(dependency-name, version-string) pairs of every ELF file of the package;
in particular an internally-consumed non-extension library, although
excluded from top-level analysis, still contributes all its pairs. -/
theorem claim10_all_elf_symbols (policies : List Policy) (pkg : List WheelFile)
    (d : WheelElfData) (k v : String)
    (hok : get_wheel_elfdata policies pkg = .ok d) :
    v ∈ vsymVals d.versionedSymbols k ↔
      ∃ f ∈ pkg, f.isElf = true ∧ (k, v) ∈ f.symPairs := by
  obtain ⟨-, rfl⟩ := gwe_ok_elim policies pkg d hok
  rw [gweSpec_versionedSymbols, mem_vsAccum]
  simp [vsymVals, alistGetD, alistGet]

/-! ### Counterexamples and witnesses -/

/-- Witness for C1: a concrete clean package with one extension. -/
theorem claim1_witness :
    get_wheel_elfdata pols2 [fileExtClean] = Except.ok (gweSpec pols2 [fileExtClean]) ∧
    (let d := gweSpec pols2 [fileExtClean]
     ∃ info, analyze_wheel_abi pols2 vsp0 env0 [fileExtClean] = .ok info ∧
       info.overallTag = getPolicyName pols2
         (min (min (symbolVerdict vsp0 env0 pols2 d).1 (refPolicyOf pols2 d))
           (min (ucsPolicyOf pols2 d) (pyfpePolicyOf pols2 d))) ∧
       min (min (symbolVerdict vsp0 env0 pols2 d).1 (refPolicyOf pols2 d))
           (min (ucsPolicyOf pols2 d) (pyfpePolicyOf pols2 d))
         ≤ (symbolVerdict vsp0 env0 pols2 d).1 ∧
       min (min (symbolVerdict vsp0 env0 pols2 d).1 (refPolicyOf pols2 d))
           (min (ucsPolicyOf pols2 d) (pyfpePolicyOf pols2 d))
         ≤ refPolicyOf pols2 d ∧
       min (min (symbolVerdict vsp0 env0 pols2 d).1 (refPolicyOf pols2 d))
           (min (ucsPolicyOf pols2 d) (pyfpePolicyOf pols2 d))
         ≤ ucsPolicyOf pols2 d ∧
       min (min (symbolVerdict vsp0 env0 pols2 d).1 (refPolicyOf pols2 d))
           (min (ucsPolicyOf pols2 d) (pyfpePolicyOf pols2 d))
         ≤ pyfpePolicyOf pols2 d) :=
  ⟨rfl, claim1_overall_tag_is_min pols2 vsp0 env0 [fileExtClean]
    (gweSpec pols2 [fileExtClean]) rfl⟩

/-- Claim C2 counterexample: two mutually-consuming non-extension libraries
are never promoted, so nothing is analyzed at top level and the external
dependency libX.so — reachable through the first library's tree — is
visited zero times at the top level, not exactly once. -/
theorem claim2_counterexample :
    (get_wheel_elfdata pols2 pkgMutual).map
        (fun d => (d.fullElftree.map Prod.fst, topLevelVisitCount d "libX.so"))
      = .ok ([], 0) ∧ reachableExternalDep pkgMutual "libX.so" := by
  refine ⟨rfl, ?_⟩
  unfold reachableExternalDep
  decide

/-- Witness for C2 (amended): a promoted library in a concrete package. -/
theorem claim2_witness :
    (([fileExtClean, libFpeNonExt].map (fun g => g.path)).Nodup) ∧
    libFpeNonExt ∈ [fileExtClean, libFpeNonExt] ∧
    libFpeNonExt.isElf = true ∧ libFpeNonExt.isPyExt = false ∧
    get_wheel_elfdata pols2 [fileExtClean, libFpeNonExt]
      = .ok (gweSpec pols2 [fileExtClean, libFpeNonExt]) ∧
    (libFpeNonExt.path ∈ (gweSpec pols2 [fileExtClean, libFpeNonExt]).fullElftree.map Prod.fst
      ↔ pathBasename libFpeNonExt.path ∉ neededLibs [fileExtClean, libFpeNonExt]) :=
  ⟨by decide, by decide, rfl, rfl, rfl,
   claim2_amended pols2 [fileExtClean, libFpeNonExt] _ libFpeNonExt
     (by decide) (by decide) rfl rfl rfl⟩

/-- Claim C3 counterexample: two top-level objects resolve the declared
name liba.so to different real paths; the merged policy state holds a
single entry carrying the second real path — the earlier mapping was
replaced in place, not kept as a separate entry, so the per-policy state is
keyed by declared name with last writer winning, not by real path with
first writer winning. -/
theorem claim3_counterexample :
    (get_wheel_elfdata pols2 [fileExtRefX]).map
        (fun d => policyLibs (externalRefsOf pols2 d) "manylinux1")
      = .ok [("liba.so", PyVal.str "/x/liba.so.1")] ∧
    (get_wheel_elfdata pols2 [fileExtRefX, fileExtRefY]).map
        (fun d => policyLibs (externalRefsOf pols2 d) "manylinux1")
      = .ok [("liba.so", PyVal.str "/y/liba.so.2")] :=
  ⟨rfl, rfl⟩

/-- Claim C3 (amended): under `update` each policy state keeps its declared
names unique and never drops one; a later scalar write to an existing
declared name replaces its value in place (last writer wins); the
first-writer-wins dedup by real path lives in the cross-policy map of
`get_external_libs`, where each real path carries at most one soname. -/
theorem claim3_amended (d u : PyEntries) (hd : (entKeys d).Nodup) :
    (entKeys (updateEntries d u)).Nodup ∧
    (∀ a, a ∈ entKeys d → a ∈ entKeys (updateEntries d u)) ∧
    (∀ k s, entGet (updateEntries d (PyEntries.cons k (PyVal.str s) PyEntries.nil)) k
      = some (PyVal.str s)) ∧
    (∀ er rp a b, (rp, a) ∈ get_external_libs er → (rp, b) ∈ get_external_libs er → a = b) := by
  refine ⟨nodup_entKeys_updateEntries d u hd,
    fun a ha => mem_entKeys_updateEntries d u a ha, ?_, ?_⟩
  · intro k s
    rw [updateEntries_single_str]
    exact entGet_set_self d k _
  · intro er rp a b ha hb
    exact assoc_value_unique _ rp a b (nodup_keys_get_external_libs er) ha hb

/-- Witness for C3 (amended) at concrete dicts. -/
theorem claim3_witness :
    ((entKeys updD).Nodup) ∧
    ((entKeys (updateEntries updD updU)).Nodup ∧
     (∀ a, a ∈ entKeys updD → a ∈ entKeys (updateEntries updD updU)) ∧
     (∀ k s, entGet (updateEntries updD (PyEntries.cons k (PyVal.str s) PyEntries.nil)) k
       = some (PyVal.str s)) ∧
     (∀ er rp a b, (rp, a) ∈ get_external_libs er → (rp, b) ∈ get_external_libs er → a = b)) :=
  ⟨by decide, claim3_amended updD updU (by decide)⟩

/-- Claim C4 counterexample: the same declared name liba.so reaches the
re-scan from two real paths seen in this order; the versioned-symbol
requirements used for liba.so are those of the later real path, not the
first-seen one (whose requirement set differs). -/
theorem claim4_counterexample :
    (get_wheel_elfdata pols2 [fileExtRefX, fileExtRefY]).map (fun d =>
        get_versioned_symbols envC4 (get_external_libs (externalRefsOf pols2 d)))
      = .ok [("liba.so", [("libc.so.6", ["GLIBC_2.30"])])] ∧
    vsymAddPairs [] [("libc.so.6", "GLIBC_2.5")] ≠ [("libc.so.6", ["GLIBC_2.30"])] :=
  ⟨rfl, by decide⟩

/-- Claim C4 (amended): in `get_versioned_symbols`, when the same declared
name appears for several real paths, the result for that name is the
symbol set of the last ELF-parseable real path in scan order: a final
entry determines the outcome regardless of any earlier ones. -/
theorem claim4_amended (env : String → Option (List (String × String)))
    (libs : List (String × String)) (rp so : String) (pairs : List (String × String))
    (h : env rp = some pairs) :
    alistGet (get_versioned_symbols env (libs ++ [(rp, so)])) so
      = some (vsymAddPairs [] pairs) := by
  unfold get_versioned_symbols
  rw [List.foldl_append]
  simp only [List.foldl_cons, List.foldl_nil, h]
  exact alistGet_set_self _ so _

/-- Witness for C4 (amended) at the concrete re-scan environment. -/
theorem claim4_witness :
    envC4 "/y/liba.so.2" = some [("libc.so.6", "GLIBC_2.30")] ∧
    alistGet (get_versioned_symbols envC4
        ([("/x/liba.so.1", "liba.so")] ++ [("/y/liba.so.2", "liba.so")])) "liba.so"
      = some (vsymAddPairs [] [("libc.so.6", "GLIBC_2.30")]) :=
  ⟨rfl, claim4_amended envC4 [("/x/liba.so.1", "liba.so")] "/y/liba.so.2" "liba.so"
    [("libc.so.6", "GLIBC_2.30")] rfl⟩

/-- Witness for C5: a package whose only dependency is whitelisted leaves
every policy state empty. -/
theorem claim5_witness :
    (∀ e ∈ pvEntries (externalRefsOf pols2 (gweSpec pols2 [fileExtClean])),
      (pvLibs e.2).isEmpty = true) ∧
    symbolVerdict vsp0 env0 pols2 (gweSpec pols2 [fileExtClean])
      = (vsp0 (gweSpec pols2 [fileExtClean]).versionedSymbols,
         (gweSpec pols2 [fileExtClean]).versionedSymbols) :=
  ⟨by decide, claim5_no_external_fallback pols2 vsp0 env0 _ (by decide)⟩

/-- Witness for C6 at a concrete package, index and extra symbol pair. -/
theorem claim6_witness :
    (∀ a b, vsymSub a b → vsp0 a ≤ vsp0 b) ∧
    0 < ([fileExtClean] : List WheelFile).length ∧
    get_wheel_elfdata pols2 [fileExtClean] = .ok (gweSpec pols2 [fileExtClean]) ∧
    get_wheel_elfdata pols2
        ([fileExtClean].set 0 (enlargeSyms fileExtClean [("libc.so.6", "GLIBC_2.30")]))
      = .ok (gweSpec pols2
        ([fileExtClean].set 0 (enlargeSyms fileExtClean [("libc.so.6", "GLIBC_2.30")]))) ∧
    (symbolVerdict vsp0 env0 pols2 (gweSpec pols2 [fileExtClean])).1
      ≤ (symbolVerdict vsp0 env0 pols2 (gweSpec pols2
          ([fileExtClean].set 0 (enlargeSyms fileExtClean [("libc.so.6", "GLIBC_2.30")])))).1 :=
  ⟨fun a b _ => le_refl 0, by decide, rfl, rfl,
   claim6_symbol_monotone pols2 vsp0 env0 [fileExtClean] 0 [("libc.so.6", "GLIBC_2.30")]
     (fun a b _ => le_refl 0) (by decide) _ _ rfl rfl⟩

/-- Witness for C7: a concrete package with an ELF under purelib. -/
theorem claim7_witness :
    (∃ f ∈ [fileExtPurelib], f.isElf = true ∧ "purelib" ∈ pathParts f.path) ∧
    (∃ e, analyze_wheel_abi pols2 vsp0 env0 [fileExtPurelib] = .error e) :=
  ⟨⟨fileExtPurelib, by decide, rfl, by decide⟩,
   claim7_purelib_fatal pols2 vsp0 env0 [fileExtPurelib]
     ⟨fileExtPurelib, by decide, rfl, by decide⟩⟩

/-- Claim C8 counterexample: a non-extension object promoted to top-level
analysis references the floating-point-exception-buffer symbol by exact
name, yet the package flag stays false — the detection is performed for
extension objects only, not for every analyzed object. -/
theorem claim8_counterexample :
    (get_wheel_elfdata pols2 [libFpeNonExt]).map
        (fun d => (d.fullElftree.map Prod.fst, d.usesPyFPE))
      = .ok (["pkg/libq.so"], false) ∧
    elfReferencesPyFPEJbuf libFpeNonExt = true :=
  ⟨rfl, rfl⟩

/-- Witness for C8 (amended) at a narrow-unicode extension package. -/
theorem claim8_witness :
    get_wheel_elfdata pols2 [fileExtUcs] = .ok (gweSpec pols2 [fileExtUcs]) ∧
    (((gweSpec pols2 [fileExtUcs]).usesUcs2 = true ↔
        ∃ f ∈ [fileExtUcs], f.isElf = true ∧ f.isPyExt = true ∧ f.pyVer = 2 ∧ f.ucs2Syms ≠ []) ∧
     ((gweSpec pols2 [fileExtUcs]).usesPyFPE = true ↔
        ∃ f ∈ [fileExtUcs], f.isElf = true ∧ f.isPyExt = true ∧ elfReferencesPyFPEJbuf f = true)) :=
  ⟨rfl, claim8_amended pols2 [fileExtUcs] _ rfl⟩

/-- Claim C9 counterexample: the package at the same path changes between
the two calls, yet the second call returns the first call's memoized
symbols, which differ from the symbols of the content current at the
second call — the memo is keyed by path alone and never invalidated. -/
theorem claim9_counterexample :
    ((get_wheel_elfdata_cached pols2 wheelEnvAfter
        (get_wheel_elfdata_cached pols2 wheelEnvBefore [] "w.whl").2 "w.whl").1).map
        (fun d => d.versionedSymbols) = .ok [("libc.so.6", ["GLIBC_2.5"])] ∧
    (get_wheel_elfdata pols2 (wheelEnvAfter "w.whl")).map (fun d => d.versionedSymbols)
      = .ok [("libc.so.6", ["GLIBC_2.30"])] ∧
    ([("libc.so.6", ["GLIBC_2.5"])] : VSymMap) ≠ [("libc.so.6", ["GLIBC_2.30"])] :=
  ⟨rfl, rfl, by decide⟩

/-- Witness for C9 (amended) at a concrete populated memo. -/
theorem claim9_witness :
    alistGet [("w.whl", dDummy)] "w.whl" = some dDummy ∧
    get_wheel_elfdata_cached pols2 wheelEnvAfter [("w.whl", dDummy)] "w.whl"
      = (.ok dDummy, [("w.whl", dDummy)]) :=
  ⟨rfl, claim9_amended pols2 wheelEnvAfter [("w.whl", dDummy)] "w.whl" dDummy rfl⟩

/-- Witness for C10: the internally-consumed library's symbol pair is in
the package set. -/
theorem claim10_witness :
    get_wheel_elfdata pols2 [fileExtUses, libInternal]
      = .ok (gweSpec pols2 [fileExtUses, libInternal]) ∧
    ("GLIBC_2.12" ∈ vsymVals (gweSpec pols2 [fileExtUses, libInternal]).versionedSymbols
        "libc.so.6" ↔
      ∃ f ∈ [fileExtUses, libInternal], f.isElf = true ∧
        ("libc.so.6", "GLIBC_2.12") ∈ f.symPairs) :=
  ⟨rfl, claim10_all_elf_symbols pols2 [fileExtUses, libInternal] _ "libc.so.6" "GLIBC_2.12" rfl⟩

end WheelAbi
